import Mathlib

/-!
Verification development for the VectHare repository.

Part 1 embeds `src/backends/backend-manager.js`: the backend registry with
alias resolution, the process-wide instance/health/timestamp maps, LRU
eviction, and the public operations `initializeBackend`, `getBackend`,
`isBackendAvailable`, `resetBackendHealth`.

JavaScript objects used as maps are modelled as insertion-ordered
association lists (`List (String × α)`): assignment to an existing key
keeps its position, assignment to a new key appends, `delete` removes the
entry.  `Date.now()` is an external input and is passed to each operation
as a `now : Nat` argument.  Backend construction and the health probe are
external effects; their observable result is passed in as a
`ConstructOutcome` value, and the number of construction attempts per
backend name is tracked as ghost state so that "construction was
re-attempted" is expressible.  Backend instances are identified by the
`Nat` drawn from a fresh-id counter, modelling JS object identity.
-/

/-- Lookup in a JS-object-as-map: the value of the first entry with the key. -/
def jsGet {α : Type} (m : List (String × α)) (k : String) : Option α :=
  (m.find? (fun p => p.1 = k)).map (fun p => p.2)

/-- JS property assignment: overwrite in place if the key exists, else append. -/
def jsSet {α : Type} (m : List (String × α)) (k : String) (v : α) :
    List (String × α) :=
  if (m.find? (fun p => p.1 = k)).isSome then
    m.map (fun p => if p.1 = k then (k, v) else p)
  else
    m ++ [(k, v)]

/-- JS `delete obj[k]`: remove every entry with the key. -/
def jsDelete {α : Type} (m : List (String × α)) (k : String) :
    List (String × α) :=
  m.filter (fun p => !(p.1 = k))

/-- Backend registry keys of `BACKENDS` in `backend-manager.js`. -/
def registeredNames : List String := ["standard", "lancedb", "qdrant", "milvus"]

/-- `normalizeBackendName` from `backend-manager.js`: a falsy name
(`undefined`/`null` modelled as `none`, and the empty string) maps to
`"standard"`; the alias table sends `"vectra"` to `"standard"`; any other
name is returned unchanged. -/
def normalizeBackendName (backendName : Option String) : String :=
  match backendName with
  | none => "standard"
  | some s =>
    if s = "" then "standard"
    else if s = "vectra" then "standard" else s

/-- The process-wide mutable state of the backend manager: the three maps
`backendInstances`, `backendHealthStatus`, `backendAccessTimestamps`, plus
a ghost per-name construction-attempt counter and a fresh-id counter for
instance identity. -/
structure BState where
  instances : List (String × Nat)
  health : List (String × Bool)
  timestamps : List (String × Nat)
  attempts : List (String × Nat)
  nextId : Nat
deriving Repr, DecidableEq

/-- The state at module load: all three maps empty. -/
def initState : BState := ⟨[], [], [], [], 0⟩

/-- `MAX_CACHED_BACKENDS` from `backend-manager.js`. -/
def MAX_CACHED_BACKENDS : Nat := 5

/-- The strictly-less minimum scan of `evictLRUBackendIfNeeded`: fold over
the timestamp entries in object order, keeping the first entry whose
timestamp is strictly smaller than the best so far (initial best:
`Infinity`, modelled by the `none` accumulator). -/
def oldestStep (acc : Option (String × Nat)) (p : String × Nat) :
    Option (String × Nat) :=
  match acc with
  | none => some p
  | some q => if p.2 < q.2 then some p else acc

def oldestPair (l : List (String × Nat)) : Option (String × Nat) :=
  l.foldl oldestStep none

/-- `evictLRUBackendIfNeeded` from `backend-manager.js`: when the instance
cache holds `MAX_CACHED_BACKENDS` or more entries, scan the
access-timestamp map for the oldest entry and delete that name from all
three maps.  The JS guard `if (oldestBackend)` is string truthiness, so an
empty-string name would be skipped. -/
def evictLRUBackendIfNeeded (st : BState) : BState :=
  if MAX_CACHED_BACKENDS ≤ st.instances.length then
    match oldestPair st.timestamps with
    | some q =>
      if q.1 = "" then st
      else
        { st with
          instances := jsDelete st.instances q.1,
          health := jsDelete st.health q.1,
          timestamps := jsDelete st.timestamps q.1 }
    | none => st
  else st

/-- Observable result of one backend construction / health-probe attempt:
`throws e` covers the constructor, `initialize`, or `healthCheck` raising
(all land in the same `catch`); `healthFalse` is a probe returning
`false`; `healthy` is a successful construction and probe. -/
inductive ConstructOutcome where
  | throws (e : String)
  | healthFalse
  | healthy
deriving Repr, DecidableEq

/-- `initializeBackend` from `backend-manager.js`.  Returns
`Except.error e` for a JS `throw e`, `Except.ok none` for `return null`,
`Except.ok (some i)` for returning instance `i`, paired with the state
after the call.  Mirrors the source order: cached-healthy early return
(refreshing the timestamp), LRU eviction, registry lookup, then the
construct/health-check `try` block (entering it bumps the ghost attempt
counter). -/
def initializeBackend (backendName : Option String)
    (outcome : ConstructOutcome) (now : Nat) (throwOnFail : Bool)
    (st : BState) : Except String (Option Nat) × BState :=
  let n := normalizeBackendName backendName
  if (jsGet st.instances n).isSome ∧ jsGet st.health n = some true then
    (Except.ok (jsGet st.instances n),
     { st with timestamps := jsSet st.timestamps n now })
  else
    let st1 := evictLRUBackendIfNeeded st
    if n ∈ registeredNames then
      let st2 :=
        { st1 with attempts := jsSet st1.attempts n ((jsGet st1.attempts n).getD 0 + 1) }
      match outcome with
      | .throws e =>
        let st3 := { st2 with health := jsSet st2.health n false }
        (if throwOnFail then Except.error e else Except.ok none, st3)
      | .healthFalse =>
        let st3 := { st2 with health := jsSet st2.health n false }
        (if throwOnFail then Except.error ("Backend " ++ n ++ " failed health check")
         else Except.ok none, st3)
      | .healthy =>
        let id := st2.nextId
        let st3 :=
          { st2 with
            instances := jsSet st2.instances n id,
            health := jsSet st2.health n true,
            timestamps := jsSet st2.timestamps n now,
            nextId := id + 1 }
        (Except.ok (some id), st3)
    else
      (if throwOnFail then Except.error ("Unknown backend: " ++ n)
       else Except.ok none, st1)

/-- Truthiness filter of the JS `||` chain in `getBackend`: `null`,
`undefined` and the empty string are falsy. -/
def truthyStr : Option String → Option String
  | some s => if s = "" then none else some s
  | none => none

/-- Backend-name resolution of `getBackend`: explicit parameter, then
`settings.vector_backend`, then the global setting, then `"standard"`. -/
def resolveBackendName (preferred settingsName globalName : Option String) :
    String :=
  match truthyStr preferred with
  | some s => s
  | none =>
    match truthyStr settingsName with
    | some s => s
    | none =>
      match truthyStr globalName with
      | some s => s
      | none => "standard"

/-- `getBackend` from `backend-manager.js`: resolve the effective name and
delegate to `initializeBackend` with `throwOnFail = true`. -/
def getBackend (preferred settingsName globalName : Option String)
    (outcome : ConstructOutcome) (now : Nat) (st : BState) :
    Except String (Option Nat) × BState :=
  initializeBackend (some (resolveBackendName preferred settingsName globalName))
    outcome now true st

/-- `isBackendAvailable` from `backend-manager.js`: known-bad health
short-circuits to `false`; a healthy cached instance short-circuits to
`true`; otherwise fail-soft initialization, reporting whether an instance
was produced.  A `throw` escaping `initializeBackend` would propagate. -/
def isBackendAvailable (backendName : Option String)
    (outcome : ConstructOutcome) (now : Nat) (st : BState) :
    Except String Bool × BState :=
  let n := normalizeBackendName backendName
  if jsGet st.health n = some false then (Except.ok false, st)
  else if (jsGet st.instances n).isSome ∧ jsGet st.health n = some true then
    (Except.ok true, st)
  else
    match initializeBackend backendName outcome now false st with
    | (Except.ok r, st2) => (Except.ok r.isSome, st2)
    | (Except.error e, st2) => (Except.error e, st2)

/-- Reset-all branch of `resetBackendHealth`: delete every key of the
health map from both the health map and the instance map; the timestamp
map is untouched. -/
def resetAllHealth (st : BState) : BState :=
  { st with
    health := [],
    instances := st.instances.filter (fun p => (jsGet st.health p.1).isNone) }

/-- `resetBackendHealth` from `backend-manager.js`: a truthy name resets
that one normalized name (deleting its health flag and instance); a falsy
argument (`null`/omitted, or the empty string) resets all.  Timestamps are
never touched. -/
def resetBackendHealth (backendName : Option String) (st : BState) : BState :=
  match backendName with
  | some s =>
    if s = "" then resetAllHealth st
    else
      let n := normalizeBackendName (some s)
      { st with
        health := jsDelete st.health n,
        instances := jsDelete st.instances n }
  | none => resetAllHealth st

/-- One public cache operation together with its external inputs. -/
inductive CacheOp where
  | init (name : Option String) (outcome : ConstructOutcome) (now : Nat)
      (throwOnFail : Bool)
  | get (preferred settingsName globalName : Option String)
      (outcome : ConstructOutcome) (now : Nat)
  | avail (name : Option String) (outcome : ConstructOutcome) (now : Nat)
  | reset (name : Option String)
deriving Repr

/-- Effect of one public operation on the shared state. -/
def cacheStep (st : BState) : CacheOp → BState
  | .init name o now tf => (initializeBackend name o now tf st).2
  | .get p s g o now => (getBackend p s g o now st).2
  | .avail name o now => (isBackendAvailable name o now st).2
  | .reset name => resetBackendHealth name st

/-- State after a sequence of public operations from module load. -/
def runOps (ops : List CacheOp) : BState :=
  ops.foldl cacheStep initState

/-!
Part 2: the BM25 scorer.  The implementation file `core/bm25-scorer.js` is
not part of the sources at hand (only its test fixture `src/bm25-test.js`
is), so the scorer is modelled from the spec: tokenizer §4.1 (lower-case,
split on non-alphanumeric boundaries, drop empty tokens) and the scoring
formula §4.2
  score(D,Q) = Σ_qi IDF(qi) · f(qi,D)·(k1+1) / (f(qi,D) + k1·(1−b+b·|D|/avgdl))
  IDF(qi)    = ln((N − df(qi) + 0.5)/(df(qi) + 0.5) + 1).
All rational arithmetic is exact (ℚ); the logarithm is kept symbolic: a
document's score is the sum over query terms of `Real.log idfArg * weight`
where the `(idfArg, weight)` pairs are computed by `scoreTerms`.
-/

/-- Modelled from the spec: alphanumeric test for the §4.1 tokenizer. -/
def isAlnumChar (c : Char) : Bool := c.isAlpha || c.isDigit

/-- Modelled from the spec: accumulate maximal alphanumeric runs, in
order, dropping empty tokens.  `acc` holds the current run reversed. -/
def gatherTokens : List Char → List Char → List String
  | [], acc => if acc = [] then [] else [String.mk acc.reverse]
  | c :: cs, acc =>
    if isAlnumChar c then gatherTokens cs (c :: acc)
    else if acc = [] then gatherTokens cs []
    else String.mk acc.reverse :: gatherTokens cs []

/-- Modelled from the spec (§4.1): lower-case, split on non-alphanumeric
boundaries, discard empty tokens. -/
def tokenize (s : String) : List String :=
  gatherTokens (s.data.map Char.toLower) []

/-- Modelled from the spec: document frequency of a term — the number of
corpus documents containing it. -/
def docFreq (t : String) (corpus : List (List String)) : Nat :=
  corpus.countP (fun d => 0 < d.count t)

/-- Modelled from the spec: average document length (arithmetic mean of
token counts). -/
def avgdl (corpus : List (List String)) : ℚ :=
  ((corpus.map List.length).sum : ℚ) / (corpus.length : ℚ)

/-- Modelled from the spec: the argument of the logarithm in the IDF,
`(N − df + 0.5)/(df + 0.5) + 1`. -/
def idfArg (t : String) (corpus : List (List String)) : ℚ :=
  ((corpus.length : ℚ) - (docFreq t corpus : ℚ) + 1/2) /
      ((docFreq t corpus : ℚ) + 1/2) + 1

/-- Modelled from the spec: the term-frequency factor
`f·(k1+1) / (f + k1·(1 − b + b·|D|/avgdl))`. -/
def tfWeight (k1 b : ℚ) (t : String) (doc : List String)
    (corpus : List (List String)) : ℚ :=
  ((doc.count t : ℚ) * (k1 + 1)) /
    ((doc.count t : ℚ) +
      k1 * (1 - b + b * ((doc.length : ℚ) / avgdl corpus)))

/-- Modelled from the spec: for each query term, the pair of the IDF
logarithm argument and the term-frequency factor; the document's BM25
score is `Σ Real.log pair.1 * pair.2` over this list. -/
def scoreTerms (k1 b : ℚ) (query docText : String)
    (corpusTexts : List String) : List (ℚ × ℚ) :=
  let corpus := corpusTexts.map tokenize
  let doc := tokenize docText
  (tokenize query).map (fun t => (idfArg t corpus, tfWeight k1 b t doc corpus))

/-- `testDocuments` fixture from `src/bm25-test.js`. -/
def testDocuments : List (Nat × String) :=
  [(1, "The wizard cast a powerful fire spell at the dragon"),
   (2, "Magic spells require concentration and mana"),
   (3, "The dragon breathed fire across the battlefield"),
   (4, "Ancient wizards studied magic in the tower"),
   (5, "She learned a new healing spell today")]

/-- The fixture corpus texts in order. -/
def fixtureTexts : List String := testDocuments.map Prod.snd

/-- The query of reference test 1 in `src/bm25-test.js`. -/
def wizardQuery : String := "wizard magic spell"

/-- The fixture document containing both "wizard" and "spell". -/
def docWizard : String := "The wizard cast a powerful fire spell at the dragon"

/-- The fixture document containing none of the query terms. -/
def docNeither : String := "The dragon breathed fire across the battlefield"

/-- The per-query-term `(idfArg, weight)` pairs for a fixture document
under the reference parameters `k1 = 1.5`, `b = 0.75`. -/
def bm25Pairs (d : String) : List (ℚ × ℚ) :=
  scoreTerms (3/2) (3/4) wizardQuery d fixtureTexts

/-- A state with a full instance cache and a stale timestamp entry
`("standard", 0)` left behind by a reset (reset deletes the instance and
health flag but keeps the timestamp): the oldest timestamp belongs to a
name holding no cached instance. -/
def cexState : BState :=
  ⟨[("lancedb", 1), ("qdrant", 2), ("milvus", 3), ("extra1", 4), ("extra2", 5)],
   [("lancedb", true), ("qdrant", true), ("milvus", true), ("extra1", true),
    ("extra2", true)],
   [("standard", 0), ("lancedb", 10), ("qdrant", 11), ("milvus", 12),
    ("extra1", 13), ("extra2", 14)],
   [], 6⟩

/-! ### Lemmas about the JS-object map model -/

theorem jsGet_jsSet_self {α : Type} (m : List (String × α)) (k : String)
    (v : α) : jsGet (jsSet m k v) k = some v := by
  unfold jsGet jsSet
  by_cases h : (m.find? (fun p => p.1 = k)).isSome
  · rw [if_pos h]
    rw [List.find?_map]
    have hpe : ((fun p : String × α => decide (p.1 = k)) ∘
        (fun p : String × α => if p.1 = k then (k, v) else p)) =
        (fun p : String × α => decide (p.1 = k)) := by
      funext p
      by_cases hp : p.1 = k <;> simp [hp]
    rw [hpe]
    rcases Option.isSome_iff_exists.mp h with ⟨q, hq⟩
    have hqk : q.1 = k := by
      have := List.find?_some hq
      simpa using this
    rw [hq]
    simp [hqk]
  · rw [if_neg h]
    have hnone : m.find? (fun p => p.1 = k) = none := by
      cases hfind : m.find? (fun p => p.1 = k) with
      | none => rfl
      | some q => rw [hfind] at h; simp at h
    rw [List.find?_append, hnone]
    simp

theorem jsGet_jsSet_ne {α : Type} (m : List (String × α)) (k k' : String)
    (v : α) (hne : ¬k' = k) : jsGet (jsSet m k v) k' = jsGet m k' := by
  have hkk : ¬(k = k') := fun hh => hne hh.symm
  unfold jsGet jsSet
  by_cases h : (m.find? (fun p => p.1 = k)).isSome
  · rw [if_pos h]
    rw [List.find?_map]
    have hpe : ((fun p : String × α => decide (p.1 = k')) ∘
        (fun p : String × α => if p.1 = k then (k, v) else p)) =
        (fun p : String × α => decide (p.1 = k')) := by
      funext p
      by_cases hp : p.1 = k <;> simp [hp]
    rw [hpe]
    cases hfind : m.find? (fun p => p.1 = k') with
    | none => simp
    | some q =>
      have hqk : q.1 = k' := by
        have := List.find?_some hfind
        simpa using this
      have hqknot : ¬q.1 = k := by rw [hqk]; exact hne
      simp [hqknot]
  · rw [if_neg h]
    rw [List.find?_append]
    have hsingle : List.find? (fun p : String × α => p.1 = k') [(k, v)] =
        none := by
      simp [hkk]
    rw [hsingle]
    simp

theorem jsGet_jsDelete_self {α : Type} (m : List (String × α)) (k : String) :
    jsGet (jsDelete m k) k = none := by
  unfold jsGet jsDelete
  have hfind : (m.filter (fun p => !(p.1 = k))).find? (fun p => p.1 = k) =
      none := by
    rw [List.find?_eq_none]
    intro p hp
    have := (List.mem_filter.mp hp).2
    simpa using this
  rw [hfind]
  rfl

theorem jsGet_jsDelete_ne {α : Type} (m : List (String × α)) (k k' : String)
    (hne : ¬k' = k) : jsGet (jsDelete m k) k' = jsGet m k' := by
  unfold jsGet jsDelete
  induction m with
  | nil => rfl
  | cons p m ih =>
    by_cases hp : p.1 = k
    · have hp' : ¬p.1 = k' := by
        rw [hp]
        intro hh
        exact hne hh.symm
      rw [List.filter_cons_of_neg (by simp [hp])]
      rw [List.find?_cons_of_neg _ (by simpa using hp')]
      exact ih
    · rw [List.filter_cons_of_pos (by simp [hp])]
      by_cases hp' : p.1 = k'
      · rw [List.find?_cons_of_pos _ (by simpa using hp'),
          List.find?_cons_of_pos _ (by simpa using hp')]
      · rw [List.find?_cons_of_neg _ (by simpa using hp'),
          List.find?_cons_of_neg _ (by simpa using hp')]
        exact ih

theorem jsGet_isSome_of_mem {α : Type} {m : List (String × α)}
    {p : String × α} (h : p ∈ m) : (jsGet m p.1).isSome := by
  unfold jsGet
  cases hfind : List.find? (fun q => q.1 = p.1) m with
  | none =>
    have := (List.find?_eq_none.mp hfind) p h
    simp at this
  | some q => simp

theorem jsSet_keys {α : Type} (m : List (String × α)) (k : String) (v : α) :
    (jsSet m k v).map Prod.fst = m.map Prod.fst ∨
    (jsSet m k v).map Prod.fst = m.map Prod.fst ++ [k] := by
  unfold jsSet
  by_cases h : (m.find? (fun p => p.1 = k)).isSome
  · left
    rw [if_pos h, List.map_map]
    congr 1
    funext p
    by_cases hp : p.1 = k <;> simp [hp]
  · right
    rw [if_neg h]
    simp

theorem jsSet_keys_nodup {α : Type} (m : List (String × α)) (k : String)
    (v : α) (h : (m.map Prod.fst).Nodup) :
    ((jsSet m k v).map Prod.fst).Nodup := by
  unfold jsSet
  by_cases hf : (m.find? (fun p => p.1 = k)).isSome
  · rw [if_pos hf, List.map_map]
    have : (Prod.fst ∘ fun p : String × α => if p.1 = k then (k, v) else p) =
        Prod.fst := by
      funext p
      by_cases hp : p.1 = k <;> simp [hp]
    rw [this]
    exact h
  · rw [if_neg hf]
    have hnone : m.find? (fun p => p.1 = k) = none := by
      cases hfind : m.find? (fun p => p.1 = k) with
      | none => rfl
      | some q => rw [hfind] at hf; simp at hf
    have hk : k ∉ m.map Prod.fst := by
      intro hmem
      rcases List.mem_map.mp hmem with ⟨p, hp, hpk⟩
      have := (List.find?_eq_none.mp hnone) p hp
      simp [hpk] at this
    simp [List.nodup_append, h, hk]

theorem jsSet_mem {α : Type} {m : List (String × α)} {k : String} {v : α}
    {p : String × α} (h : p ∈ jsSet m k v) : p.1 = k ∨ p ∈ m := by
  unfold jsSet at h
  by_cases hf : (m.find? (fun q => q.1 = k)).isSome
  · rw [if_pos hf] at h
    rcases List.mem_map.mp h with ⟨q, hq, hfq⟩
    by_cases hqk : q.1 = k
    · left
      rw [← hfq]
      simp [hqk]
    · right
      rw [← hfq]
      simpa [hqk] using hq
  · rw [if_neg hf] at h
    rcases List.mem_append.mp h with h | h
    · right; exact h
    · left
      simp only [List.mem_singleton] at h
      rw [h]

theorem jsDelete_keys_nodup {α : Type} (m : List (String × α)) (k : String)
    (h : (m.map Prod.fst).Nodup) : ((jsDelete m k).map Prod.fst).Nodup := by
  have hsub : (jsDelete m k).Sublist m := List.filter_sublist m
  exact (hsub.map Prod.fst).nodup h

theorem jsDelete_mem {α : Type} {m : List (String × α)} {k : String}
    {p : String × α} (h : p ∈ jsDelete m k) : p ∈ m :=
  (List.mem_filter.mp h).1

/-! ### The oldest-timestamp scan -/

theorem oldestStep_foldl_spec (l : List (String × Nat)) :
    ∀ (acc : Option (String × Nat)) (q : String × Nat),
      l.foldl oldestStep acc = some q →
      (q ∈ l ∨ acc = some q) ∧ (∀ p ∈ l, q.2 ≤ p.2) ∧
        (∀ a, acc = some a → q.2 ≤ a.2) := by
  induction l with
  | nil =>
    intro acc q h
    simp only [List.foldl_nil] at h
    refine ⟨Or.inr h, by simp, fun a ha => ?_⟩
    rw [h] at ha
    rw [Option.some.inj ha]
  | cons p l ih =>
    intro acc q h
    simp only [List.foldl_cons] at h
    obtain ⟨h1, h2, h3⟩ := ih (oldestStep acc p) q h
    cases acc with
    | none =>
      have hqp : q.2 ≤ p.2 := h3 p rfl
      refine ⟨?_, ?_, fun a ha => by cases ha⟩
      · rcases h1 with h1 | h1
        · exact Or.inl (List.mem_cons_of_mem p h1)
        · exact Or.inl (by rw [Option.some.inj h1]; exact List.mem_cons_self q l)
      · intro r hr
        rcases List.mem_cons.mp hr with hr | hr
        · rw [hr]; exact hqp
        · exact h2 r hr
    | some a =>
      by_cases hlt : p.2 < a.2
      · have hstep : oldestStep (some a) p = some p := by
          simp [oldestStep, hlt]
        rw [hstep] at h1 h3
        have hqp : q.2 ≤ p.2 := h3 p rfl
        refine ⟨?_, ?_, fun b hb => ?_⟩
        · rcases h1 with h1 | h1
          · exact Or.inl (List.mem_cons_of_mem p h1)
          · exact Or.inl (by rw [Option.some.inj h1]; exact List.mem_cons_self q l)
        · intro r hr
          rcases List.mem_cons.mp hr with hr | hr
          · rw [hr]; exact hqp
          · exact h2 r hr
        · rw [← Option.some.inj hb]
          exact le_trans hqp (le_of_lt hlt)
      · have hstep : oldestStep (some a) p = some a := by
          simp [oldestStep, hlt]
        rw [hstep] at h1 h3
        have hqa : q.2 ≤ a.2 := h3 a rfl
        refine ⟨?_, ?_, fun b hb => ?_⟩
        · rcases h1 with h1 | h1
          · exact Or.inl (List.mem_cons_of_mem p h1)
          · exact Or.inr h1
        · intro r hr
          rcases List.mem_cons.mp hr with hr | hr
          · rw [hr]
            exact le_trans hqa (le_of_not_lt hlt)
          · exact h2 r hr
        · rw [← Option.some.inj hb]
          exact hqa

theorem oldestPair_spec (l : List (String × Nat)) (q : String × Nat)
    (h : oldestPair l = some q) : q ∈ l ∧ ∀ p ∈ l, q.2 ≤ p.2 := by
  obtain ⟨h1, h2, _⟩ := oldestStep_foldl_spec l none q h
  rcases h1 with h1 | h1
  · exact ⟨h1, h2⟩
  · cases h1

/-! ### Structural lemmas about the backend manager -/

/-- The instance-cache invariant: distinct keys, all from the registry. -/
def InstInv (st : BState) : Prop :=
  (st.instances.map Prod.fst).Nodup ∧ ∀ p ∈ st.instances, p.1 ∈ registeredNames

theorem instInv_evict {st : BState} (h : InstInv st) :
    InstInv (evictLRUBackendIfNeeded st) := by
  unfold evictLRUBackendIfNeeded
  split
  · split
    · split
      · exact h
      · exact ⟨jsDelete_keys_nodup _ _ h.1, fun p hp => h.2 p (jsDelete_mem hp)⟩
    · exact h
  · exact h

/-- A cached healthy instance is returned as-is; only its access timestamp
is refreshed (in particular, the ghost attempt counter is untouched, i.e.
no construction and no health check take place). -/
theorem init_cache_hit (name : Option String) (o : ConstructOutcome)
    (now : Nat) (tf : Bool) (st : BState) (i : Nat)
    (hi : jsGet st.instances (normalizeBackendName name) = some i)
    (hh : jsGet st.health (normalizeBackendName name) = some true) :
    initializeBackend name o now tf st =
      (Except.ok (some i),
       { st with
         timestamps := jsSet st.timestamps (normalizeBackendName name) now }) := by
  unfold initializeBackend
  rw [if_pos ⟨by rw [hi]; rfl, hh⟩, hi]

/-- With `throwOnFail = false` every branch of `initializeBackend` returns
normally (all throws are either guarded by `throwOnFail` or caught). -/
theorem init_soft_no_throw (name : Option String) (o : ConstructOutcome)
    (now : Nat) (st : BState) :
    ∃ r st2, initializeBackend name o now false st = (Except.ok r, st2) := by
  unfold initializeBackend
  by_cases hc : (jsGet st.instances (normalizeBackendName name)).isSome ∧
      jsGet st.health (normalizeBackendName name) = some true
  · rw [if_pos hc]
    exact ⟨_, _, rfl⟩
  · rw [if_neg hc]
    by_cases hr : normalizeBackendName name ∈ registeredNames
    · rw [if_pos hr]
      cases o with
      | throws e => exact ⟨_, _, rfl⟩
      | healthFalse => exact ⟨_, _, rfl⟩
      | healthy => exact ⟨_, _, rfl⟩
    · rw [if_neg hr]
      exact ⟨_, _, rfl⟩

/-- When `initializeBackend` returns an instance, the state left behind
caches that very instance for the normalized name with a `true` health
flag. -/
theorem init_ok_some (name : Option String) (o : ConstructOutcome) (now : Nat)
    (tf : Bool) (st : BState) (i : Nat) (st2 : BState)
    (h : initializeBackend name o now tf st = (Except.ok (some i), st2)) :
    jsGet st2.instances (normalizeBackendName name) = some i ∧
    jsGet st2.health (normalizeBackendName name) = some true := by
  unfold initializeBackend at h
  by_cases hc : (jsGet st.instances (normalizeBackendName name)).isSome ∧
      jsGet st.health (normalizeBackendName name) = some true
  · rw [if_pos hc] at h
    injection h with h1 h2
    injection h1 with h1
    rw [← h2]
    exact ⟨h1, hc.2⟩
  · rw [if_neg hc] at h
    by_cases hr : normalizeBackendName name ∈ registeredNames
    · rw [if_pos hr] at h
      cases o with
      | throws e =>
        cases tf
        · injection h with h1 h2; simp at h1
        · injection h with h1 h2; simp at h1
      | healthFalse =>
        cases tf
        · injection h with h1 h2; simp at h1
        · injection h with h1 h2; simp at h1
      | healthy =>
        injection h with h1 h2
        injection h1 with h1
        injection h1 with h1
        rw [← h2, ← h1]
        exact ⟨jsGet_jsSet_self _ _ _, jsGet_jsSet_self _ _ _⟩
    · rw [if_neg hr] at h
      cases tf
      · injection h with h1 h2; simp at h1
      · injection h with h1 h2; simp at h1

theorem instInv_init (name : Option String) (o : ConstructOutcome) (now : Nat)
    (tf : Bool) {st : BState} (h : InstInv st) :
    InstInv (initializeBackend name o now tf st).2 := by
  unfold initializeBackend
  by_cases hc : (jsGet st.instances (normalizeBackendName name)).isSome ∧
      jsGet st.health (normalizeBackendName name) = some true
  · rw [if_pos hc]
    exact h
  · rw [if_neg hc]
    have h1 : InstInv (evictLRUBackendIfNeeded st) := instInv_evict h
    by_cases hr : normalizeBackendName name ∈ registeredNames
    · rw [if_pos hr]
      cases o with
      | throws e => exact h1
      | healthFalse => exact h1
      | healthy =>
        refine ⟨jsSet_keys_nodup _ _ _ h1.1, ?_⟩
        intro p hp
        rcases jsSet_mem hp with hk | hk
        · rw [hk]; exact hr
        · exact h1.2 p hk
    · rw [if_neg hr]
      exact h1

theorem instInv_resetAll {st : BState} (h : InstInv st) :
    InstInv (resetAllHealth st) := by
  refine ⟨?_, ?_⟩
  · exact (((List.filter_sublist _)).map Prod.fst).nodup h.1
  · intro p hp
    exact h.2 p (List.mem_filter.mp hp).1

theorem instInv_step {st : BState} (op : CacheOp) (h : InstInv st) :
    InstInv (cacheStep st op) := by
  cases op with
  | init name o now tf => exact instInv_init name o now tf h
  | get p s g o now => exact instInv_init _ _ _ _ h
  | avail name o now =>
    show InstInv (isBackendAvailable name o now st).2
    unfold isBackendAvailable
    by_cases h1 : jsGet st.health (normalizeBackendName name) = some false
    · rw [if_pos h1]
      exact h
    · rw [if_neg h1]
      by_cases h2 : (jsGet st.instances (normalizeBackendName name)).isSome ∧
          jsGet st.health (normalizeBackendName name) = some true
      · rw [if_pos h2]
        exact h
      · rw [if_neg h2]
        have h3 := instInv_init name o now false h
        rcases hinit : initializeBackend name o now false st with ⟨r, st2⟩
        rw [hinit] at h3
        cases r with
        | ok v => exact h3
        | error e => exact h3
  | reset name =>
    show InstInv (resetBackendHealth name st)
    cases name with
    | none =>
      simp only [resetBackendHealth]
      exact instInv_resetAll h
    | some s =>
      simp only [resetBackendHealth]
      by_cases hs : s = ""
      · rw [if_pos hs]
        exact instInv_resetAll h
      · rw [if_neg hs]
        exact ⟨jsDelete_keys_nodup _ _ h.1, fun p hp => h.2 p (jsDelete_mem hp)⟩

theorem instInv_foldl (ops : List CacheOp) :
    ∀ st : BState, InstInv st → InstInv (ops.foldl cacheStep st) := by
  induction ops with
  | nil => intro st h; exact h
  | cons op ops ih =>
    intro st h
    exact ih _ (instInv_step op h)

theorem instInv_run (ops : List CacheOp) : InstInv (runOps ops) :=
  instInv_foldl ops initState ⟨List.nodup_nil, fun p hp => absurd hp (List.not_mem_nil p)⟩

/-! ### Claim theorems -/

/-- C1 counterexample: `initializeBackend` does NOT fail fast on a
recorded-bad health state.  After a failed construction for `"lancedb"`
(health recorded `false`, one construction attempt), a second
`initializeBackend` call for the same name, with no reset in between,
re-attempts construction: the ghost attempt counter rises from 1 to 2.
The fail-fast short-circuit exists only in `isBackendAvailable`. -/
theorem C1_counterexample :
    jsGet ((initializeBackend (some "lancedb") (.throws "boom") 0 true
        initState).2).health "lancedb" = some false ∧
    jsGet ((initializeBackend (some "lancedb") (.throws "boom") 0 true
        initState).2).attempts "lancedb" = some 1 ∧
    jsGet ((initializeBackend (some "lancedb") (.throws "boom") 1 true
        ((initializeBackend (some "lancedb") (.throws "boom") 0 true
          initState).2)).2).attempts "lancedb" = some 2 := by
  decide

/-- C1 (amended): for every backend name whose health state is recorded as
failed and has not been reset, a subsequent `isBackendAvailable` call
fails fast — it returns `false` and leaves the state (in particular the
construction-attempt counter) completely unchanged, so construction is not
re-attempted.  `initializeBackend` itself, by contrast, re-attempts
construction whenever no healthy cached instance exists (see the
counterexample). -/
theorem C1_amended_failFast (name : Option String) (o : ConstructOutcome)
    (now : Nat) (st : BState)
    (h : jsGet st.health (normalizeBackendName name) = some false) :
    isBackendAvailable name o now st = (Except.ok false, st) := by
  unfold isBackendAvailable
  rw [if_pos h]

/-- Witness for C1 (amended) at a concrete unhealthy state. -/
theorem C1_amended_witness :
    isBackendAvailable (some "lancedb") .healthy 5
        ⟨[], [("lancedb", false)], [], [("lancedb", 1)], 0⟩ =
      (Except.ok false, ⟨[], [("lancedb", false)], [], [("lancedb", 1)], 0⟩) :=
  C1_amended_failFast (some "lancedb") .healthy 5 _ (by decide)

/-- C2 counterexample: with the cache full and the oldest access timestamp
belonging to `"standard"` — a name holding NO cached instance — the
eviction scan selects `"standard"` (its timestamp entry is deleted),
removes no cached entry at all, and the subsequent initialization pushes
the instance cache to six entries, one past the maximum.  This refutes
both "the entry removed is the oldest among entries currently holding a
cached instance" and "entries with no cached instance are never the ones
selected for eviction". -/
theorem C2_counterexample :
    MAX_CACHED_BACKENDS ≤ cexState.instances.length ∧
    jsGet cexState.instances "standard" = none ∧
    (evictLRUBackendIfNeeded cexState).instances = cexState.instances ∧
    jsGet (evictLRUBackendIfNeeded cexState).timestamps "standard" = none ∧
    (initializeBackend (some "standard") .healthy 100 true
        cexState).2.instances.length = MAX_CACHED_BACKENDS + 1 := by
  decide

/-- C2 (amended): entries holding no cached instance do not count toward
the size cap (eviction is a no-op below `MAX_CACHED_BACKENDS` cached
instances), but the evicted entry is the one with the oldest last-access
timestamp among ALL entries of the access-timestamp map — which may be a
name holding no cached instance, e.g. one whose timestamp survived a
reset.  The selected name's entries are deleted from all three maps. -/
theorem C2_amended_eviction :
    (∀ st : BState, st.instances.length < MAX_CACHED_BACKENDS →
      evictLRUBackendIfNeeded st = st) ∧
    ∀ (st : BState) (q : String × Nat),
      MAX_CACHED_BACKENDS ≤ st.instances.length →
      oldestPair st.timestamps = some q → ¬q.1 = "" →
      q ∈ st.timestamps ∧ (∀ p ∈ st.timestamps, q.2 ≤ p.2) ∧
      evictLRUBackendIfNeeded st =
        { st with
          instances := jsDelete st.instances q.1,
          health := jsDelete st.health q.1,
          timestamps := jsDelete st.timestamps q.1 } := by
  constructor
  · intro st hlt
    unfold evictLRUBackendIfNeeded
    rw [if_neg (not_le.mpr hlt)]
  · intro st q hfull hold hne
    obtain ⟨hmem, hmin⟩ := oldestPair_spec _ _ hold
    refine ⟨hmem, hmin, ?_⟩
    unfold evictLRUBackendIfNeeded
    rw [if_pos hfull, hold]
    exact if_neg hne

/-- Witness for C2 (amended) at the concrete full state. -/
theorem C2_amended_witness :
    ("standard", 0) ∈ cexState.timestamps ∧
    (∀ p ∈ cexState.timestamps, 0 ≤ p.2) ∧
    evictLRUBackendIfNeeded cexState =
      { cexState with
        instances := jsDelete cexState.instances "standard",
        health := jsDelete cexState.health "standard",
        timestamps := jsDelete cexState.timestamps "standard" } :=
  C2_amended_eviction.2 cexState ("standard", 0) (by decide) (by decide)
    (by decide)

/-- C3: after every sequence of public cache operations from module load,
the instance cache maps each normalized backend name to at most one cached
instance (its key list has no duplicates) and holds at most
`MAX_CACHED_BACKENDS = 5` instances (in fact at most the four registered
names). -/
theorem C3_cache_size_invariant (ops : List CacheOp) :
    ((runOps ops).instances.map Prod.fst).Nodup ∧
    (runOps ops).instances.length ≤ MAX_CACHED_BACKENDS := by
  obtain ⟨hnd, hsub⟩ := instInv_run ops
  refine ⟨hnd, ?_⟩
  have hsub2 : (runOps ops).instances.map Prod.fst ⊆ registeredNames := by
    intro x hx
    rcases List.mem_map.mp hx with ⟨p, hp, hpx⟩
    rw [← hpx]
    exact hsub p hp
  have hlen : ((runOps ops).instances.map Prod.fst).length ≤
      registeredNames.length :=
    (List.subperm_of_subset hnd hsub2).length_le
  rw [List.length_map] at hlen
  exact le_trans hlen (by decide)

/-- C4: a second `initializeBackend` call for a name with a healthy cached
instance returns exactly that instance, refreshes that name's last-access
timestamp to the current time, and changes nothing else — in particular
the ghost construction-attempt counter is untouched, so no second
construction or health check takes place. -/
theorem C4_second_init_returns_cached (name : Option String)
    (o : ConstructOutcome) (now : Nat) (tf : Bool) (st : BState) (i : Nat)
    (hi : jsGet st.instances (normalizeBackendName name) = some i)
    (hh : jsGet st.health (normalizeBackendName name) = some true) :
    initializeBackend name o now tf st =
      (Except.ok (some i),
       { st with
         timestamps := jsSet st.timestamps (normalizeBackendName name) now }) :=
  init_cache_hit name o now tf st i hi hh

/-- Witness for C4 at a concrete cached-healthy state. -/
theorem C4_witness :
    initializeBackend (some "standard") (.throws "x") 9 true
        ⟨[("standard", 4)], [("standard", true)], [("standard", 2)], [], 5⟩ =
      (Except.ok (some 4),
       ⟨[("standard", 4)], [("standard", true)], [("standard", 9)], [], 5⟩) :=
  C4_second_init_returns_cached (some "standard") (.throws "x") 9 true _ 4
    (by decide) (by decide)

/-- C5: `"vectra"` and `"standard"` normalize to the same cache key, and
whenever initializing under `"vectra"` produced an instance, a subsequent
request for `"standard"` hits the same cache slot and returns the
identical instance. -/
theorem C5_vectra_standard_one_slot :
    normalizeBackendName (some "vectra") =
      normalizeBackendName (some "standard") ∧
    ∀ (st : BState) (o : ConstructOutcome) (now : Nat) (tf : Bool)
      (o2 : ConstructOutcome) (now2 : Nat) (tf2 : Bool) (i : Nat)
      (st2 : BState),
      initializeBackend (some "vectra") o now tf st =
        (Except.ok (some i), st2) →
      initializeBackend (some "standard") o2 now2 tf2 st2 =
        (Except.ok (some i),
         { st2 with timestamps := jsSet st2.timestamps "standard" now2 }) := by
  refine ⟨rfl, ?_⟩
  intro st o now tf o2 now2 tf2 i st2 h
  have hpost := init_ok_some (some "vectra") o now tf st i st2 h
  have h1 : jsGet st2.instances "standard" = some i := hpost.1
  have h2 : jsGet st2.health "standard" = some true := hpost.2
  exact init_cache_hit (some "standard") o2 now2 tf2 st2 i h1 h2

/-- Witness for C5: initialize under the alias, re-request canonically. -/
theorem C5_witness :
    initializeBackend (some "standard") .healthy 7 true
        ((initializeBackend (some "vectra") .healthy 0 true initState).2) =
      (Except.ok (some 0),
       { (initializeBackend (some "vectra") .healthy 0 true initState).2 with
         timestamps := jsSet
           ((initializeBackend (some "vectra") .healthy 0 true
             initState).2).timestamps "standard" 7 }) :=
  C5_vectra_standard_one_slot.2 initState .healthy 0 true .healthy 7 true 0 _
    (by rfl)

/-- C6: when no healthy cached instance short-circuits the call, every
failure — unknown name after alias resolution, construction/initialization
error, or failed health check — raises an error under
`throwOnFail = true`, and under `throwOnFail = false` raises no error and
returns `null` instead. -/
theorem C6_failFast_vs_failSoft (name : Option String) (o : ConstructOutcome)
    (now : Nat) (st : BState)
    (hmiss : ¬((jsGet st.instances (normalizeBackendName name)).isSome ∧
        jsGet st.health (normalizeBackendName name) = some true))
    (hfail : normalizeBackendName name ∉ registeredNames ∨
      o ≠ ConstructOutcome.healthy) :
    (∃ e, (initializeBackend name o now true st).1 = Except.error e) ∧
    (initializeBackend name o now false st).1 = Except.ok none := by
  unfold initializeBackend
  rw [if_neg hmiss, if_neg hmiss]
  by_cases hr : normalizeBackendName name ∈ registeredNames
  · rw [if_pos hr, if_pos hr]
    have ho : o ≠ ConstructOutcome.healthy := by
      rcases hfail with hf | hf
      · exact absurd hr hf
      · exact hf
    cases o with
    | throws e => exact ⟨⟨e, rfl⟩, rfl⟩
    | healthFalse => exact ⟨⟨_, rfl⟩, rfl⟩
    | healthy => exact absurd rfl ho
  · rw [if_neg hr, if_neg hr]
    exact ⟨⟨_, rfl⟩, rfl⟩

/-- Witness for C6 at an unknown backend name. -/
theorem C6_witness :
    (∃ e, (initializeBackend (some "nope") .healthy 0 true initState).1 =
      Except.error e) ∧
    (initializeBackend (some "nope") .healthy 0 false initState).1 =
      Except.ok none :=
  C6_failFast_vs_failSoft (some "nope") .healthy 0 initState (by decide)
    (Or.inl (by decide))

/-- C7: `isBackendAvailable` never throws (it always returns `Except.ok`);
it returns `false` immediately (state untouched) when the name's health is
recorded as failed, returns `true` immediately when a healthy cached
instance exists, and otherwise performs fail-soft initialization and
returns `true` exactly when that initialization produced an instance. -/
theorem C7_isBackendAvailable_contract (name : Option String)
    (o : ConstructOutcome) (now : Nat) (st : BState) :
    (∃ b st2, isBackendAvailable name o now st = (Except.ok b, st2)) ∧
    (jsGet st.health (normalizeBackendName name) = some false →
      isBackendAvailable name o now st = (Except.ok false, st)) ∧
    ((jsGet st.instances (normalizeBackendName name)).isSome ∧
        jsGet st.health (normalizeBackendName name) = some true →
      isBackendAvailable name o now st = (Except.ok true, st)) ∧
    (¬jsGet st.health (normalizeBackendName name) = some false →
      ¬((jsGet st.instances (normalizeBackendName name)).isSome ∧
          jsGet st.health (normalizeBackendName name) = some true) →
      ∃ r st2, initializeBackend name o now false st = (Except.ok r, st2) ∧
        isBackendAvailable name o now st = (Except.ok r.isSome, st2)) := by
  refine ⟨?_, fun h => ?_, fun h => ?_, fun h1 h2 => ?_⟩
  · by_cases h1 : jsGet st.health (normalizeBackendName name) = some false
    · exact ⟨false, st, by unfold isBackendAvailable; rw [if_pos h1]⟩
    · by_cases h2 : (jsGet st.instances (normalizeBackendName name)).isSome ∧
          jsGet st.health (normalizeBackendName name) = some true
      · exact ⟨true, st, by unfold isBackendAvailable; rw [if_neg h1, if_pos h2]⟩
      · obtain ⟨r, st2, hr⟩ := init_soft_no_throw name o now st
        exact ⟨r.isSome, st2,
          by unfold isBackendAvailable; rw [if_neg h1, if_neg h2, hr]⟩
  · unfold isBackendAvailable
    rw [if_pos h]
  · have hf : ¬jsGet st.health (normalizeBackendName name) = some false := by
      rw [h.2]
      simp
    unfold isBackendAvailable
    rw [if_neg hf, if_pos h]
  · obtain ⟨r, st2, hr⟩ := init_soft_no_throw name o now st
    refine ⟨r, st2, hr, ?_⟩
    unfold isBackendAvailable
    rw [if_neg h1, if_neg h2, hr]

/-- Witness for C7 at a concrete known-bad state. -/
theorem C7_witness :
    isBackendAvailable (some "qdrant") .healthy 0
        ⟨[], [("qdrant", false)], [], [], 0⟩ =
      (Except.ok false, ⟨[], [("qdrant", false)], [], [], 0⟩) :=
  (C7_isBackendAvailable_contract (some "qdrant") .healthy 0 _).2.1 (by decide)

/-- C8: for the five-document reference fixture with `k1 = 1.5`,
`b = 0.75` and the query `"wizard magic spell"`, the BM25 score of the
document containing both "wizard" and "spell" is strictly greater than the
score of the fixture document containing none of the query terms (which
scores exactly 0), so the former is ranked above the latter.  A document's
score is `Σ Real.log pair.1 * pair.2` over its `bm25Pairs`. -/
theorem C8_bm25_ranking :
    ((bm25Pairs docNeither).map
        (fun p => Real.log (p.1 : ℝ) * (p.2 : ℝ))).sum <
    ((bm25Pairs docWizard).map
        (fun p => Real.log (p.1 : ℝ) * (p.2 : ℝ))).sum := by
  have hq : tokenize wizardQuery = ["wizard", "magic", "spell"] := by decide
  have hdfw : docFreq "wizard" (fixtureTexts.map tokenize) = 1 := by decide
  have hdfm : docFreq "magic" (fixtureTexts.map tokenize) = 2 := by decide
  have hdfs : docFreq "spell" (fixtureTexts.map tokenize) = 2 := by decide
  have hlen : (fixtureTexts.map tokenize).length = 5 := by decide
  have hsum : ((fixtureTexts.map tokenize).map List.length).sum = 37 := by
    decide
  have hN : bm25Pairs docNeither = [(4, 0), (12/5, 0), (12/5, 0)] := by
    have hcw : List.count "wizard" (tokenize docNeither) = 0 := by decide
    have hcm : List.count "magic" (tokenize docNeither) = 0 := by decide
    have hcs : List.count "spell" (tokenize docNeither) = 0 := by decide
    simp only [bm25Pairs, scoreTerms, hq, List.map_cons, List.map_nil]
    simp only [idfArg, tfWeight, avgdl, hdfw, hdfm, hdfs, hlen, hsum,
      hcw, hcm, hcs]
    norm_num
  have hW : bm25Pairs docWizard =
      [(4, 740/857), (12/5, 0), (12/5, 740/857)] := by
    have hcw : List.count "wizard" (tokenize docWizard) = 1 := by decide
    have hcm : List.count "magic" (tokenize docWizard) = 0 := by decide
    have hcs : List.count "spell" (tokenize docWizard) = 1 := by decide
    have hdl : (tokenize docWizard).length = 10 := by decide
    simp only [bm25Pairs, scoreTerms, hq, List.map_cons, List.map_nil]
    simp only [idfArg, tfWeight, avgdl, hdfw, hdfm, hdfs, hlen, hsum,
      hcw, hcm, hcs, hdl]
    norm_num
  rw [hN, hW]
  simp only [List.map_cons, List.map_nil, List.sum_cons, List.sum_nil]
  have h4 : (0 : ℝ) < Real.log ((4 : ℚ) : ℝ) := by
    apply Real.log_pos
    norm_num
  have h125 : (0 : ℝ) < Real.log (((12 : ℚ) / 5 : ℚ) : ℝ) := by
    apply Real.log_pos
    norm_num
  push_cast
  push_cast at h4 h125
  nlinarith [h4, h125]

/-- C9: a falsy backend name argument (`undefined`/`null`, modelled as
`none`, or the empty string) normalizes to `"standard"`, and
`initializeBackend` and `isBackendAvailable` behave exactly — same result,
same state — as if `"standard"` had been requested. -/
theorem C9_falsy_names_default_standard (o : ConstructOutcome) (now : Nat)
    (tf : Bool) (st : BState) :
    normalizeBackendName none = "standard" ∧
    normalizeBackendName (some "") = "standard" ∧
    initializeBackend none o now tf st =
      initializeBackend (some "standard") o now tf st ∧
    initializeBackend (some "") o now tf st =
      initializeBackend (some "standard") o now tf st ∧
    isBackendAvailable none o now st =
      isBackendAvailable (some "standard") o now st ∧
    isBackendAvailable (some "") o now st =
      isBackendAvailable (some "standard") o now st :=
  ⟨rfl, rfl, rfl, rfl, rfl, rfl⟩

theorem jsGet_eq_none {α : Type} {m : List (String × α)} {k : String}
    (h : ∀ p ∈ m, ¬p.1 = k) : jsGet m k = none := by
  unfold jsGet
  rw [List.find?_eq_none.mpr (fun x hx => by simpa using h x hx)]
  rfl

/-- C10: `resetBackendHealth` — single name or reset-all — deletes the
cached instance and the health flag for the affected names, but leaves the
access-timestamp map entirely unchanged, so a name's timestamp entry
survives the reset of that name. -/
theorem C10_reset_preserves_timestamps (nameOpt : Option String)
    (st : BState) :
    (resetBackendHealth nameOpt st).timestamps = st.timestamps ∧
    (∀ s : String, nameOpt = some s → ¬s = "" →
      jsGet (resetBackendHealth nameOpt st).instances
          (normalizeBackendName (some s)) = none ∧
      jsGet (resetBackendHealth nameOpt st).health
          (normalizeBackendName (some s)) = none) ∧
    ((nameOpt = none ∨ nameOpt = some "") →
      (resetBackendHealth nameOpt st).health = [] ∧
      ∀ p ∈ st.health,
        jsGet (resetBackendHealth nameOpt st).instances p.1 = none) := by
  have hall : ∀ p ∈ st.health,
      jsGet (resetAllHealth st).instances p.1 = none := by
    intro p hp
    have hsome := jsGet_isSome_of_mem hp
    apply jsGet_eq_none
    intro x hx hxp
    have hnone : (jsGet st.health x.1).isNone := by
      simpa using (List.mem_filter.mp hx).2
    rw [hxp, Option.isNone_iff_eq_none] at hnone
    rw [hnone] at hsome
    simp at hsome
  cases nameOpt with
  | none =>
    have hred : resetBackendHealth none st = resetAllHealth st := rfl
    rw [hred]
    refine ⟨rfl, ?_, ?_⟩
    · intro s hs
      cases hs
    · intro _
      exact ⟨rfl, hall⟩
  | some s =>
    by_cases hs : s = ""
    · have hred : resetBackendHealth (some s) st = resetAllHealth st :=
        if_pos hs
      rw [hred]
      refine ⟨rfl, ?_, ?_⟩
      · intro s2 hs2 hne
        rw [hs] at hs2
        injection hs2 with hs2
        exact absurd hs2.symm hne
      · intro _
        exact ⟨rfl, hall⟩
    · have hred : resetBackendHealth (some s) st =
          { st with
            health := jsDelete st.health (normalizeBackendName (some s)),
            instances :=
              jsDelete st.instances (normalizeBackendName (some s)) } :=
        if_neg hs
      rw [hred]
      refine ⟨rfl, ?_, ?_⟩
      · intro s2 hs2 hne
        injection hs2 with hs2
        rw [← hs2]
        exact ⟨jsGet_jsDelete_self _ _, jsGet_jsDelete_self _ _⟩
      · intro hor
        rcases hor with hor | hor
        · cases hor
        · injection hor with hor
          exact absurd hor hs

/-- Witness for C10 at a concrete cached state. -/
theorem C10_witness :
    (resetBackendHealth (some "standard")
        ⟨[("standard", 1)], [("standard", true)], [("standard", 3)], [],
         2⟩).timestamps = [("standard", 3)] ∧
    jsGet (resetBackendHealth (some "standard")
        ⟨[("standard", 1)], [("standard", true)], [("standard", 3)], [],
         2⟩).instances "standard" = none :=
  ⟨(C10_reset_preserves_timestamps (some "standard") _).1,
   ((C10_reset_preserves_timestamps (some "standard") _).2.1 "standard" rfl
      (by decide)).1⟩
